import Mathlib

/-!
Shallow embedding of the hex-window spatial query engine of the
echoapp backend (files `analyses_pois_h3.py` and `analyses_trains.py`).

Geometry is modelled set-theoretically: a geometry is a finite set of
planar points with integer coordinates; `unary_union` is set union,
`intersects` is non-empty intersection, and a bounding box is the
coordinate-wise min/max envelope.  The external grid library (h3) is
modelled by its documented semantics: cells are axial coordinates and
`grid_disk c k` is the set of cells at hex grid distance at most `k`
from `c`.  The external projection library (pyproj) and the polygon
boundary accessors of shapely are modelled as function parameters,
bundled in `GeoPrims`.
-/

namespace EchoApp

/-- A planar point (projected metric or geographic), integer coordinates. -/
abbrev Point := Int × Int

/-- A hex grid cell, in axial coordinates.  Models the h3 cell identifier. -/
abbrev Cell := Int × Int

/-- Hex grid distance between two axial-coordinate cells.  Models the grid
distance of the external h3 library (`h3_distance`): on axial coordinates
`(q, r)` it is `(|dq| + |dr| + |dq + dr|) / 2`. -/
def hexDist (a b : Cell) : Nat :=
  ((a.1 - b.1).natAbs + (a.2 - b.2).natAbs + ((a.1 + a.2) - (b.1 + b.2)).natAbs) / 2

/-- Models the external h3 primitive `grid_disk` / `k_ring` (source
`analyses_trains.py` lines 26-30 delegate to it): the set of cells within
grid distance `j` of `c`.  Enumerated over the covering coordinate box so
the definition is executable. -/
def gridDisk (c : Cell) (j : Nat) : Finset Cell :=
  (Finset.Icc (c.1 - (j : Int)) (c.1 + (j : Int)) ×ˢ
    Finset.Icc (c.2 - (j : Int)) (c.2 + (j : Int))).filter (fun x => hexDist x c ≤ j)

lemma hexDist_le_imp_box {x c : Cell} {j : Nat} (h : hexDist x c ≤ j) :
    (x.1 - c.1).natAbs ≤ j ∧ (x.2 - c.2).natAbs ≤ j := by
  unfold hexDist at h
  omega

lemma mem_gridDisk {x c : Cell} {j : Nat} : x ∈ gridDisk c j ↔ hexDist x c ≤ j := by
  unfold gridDisk
  rw [Finset.mem_filter]
  constructor
  · rintro ⟨-, h⟩; exact h
  · intro h
    refine ⟨?_, h⟩
    rw [Finset.mem_product, Finset.mem_Icc, Finset.mem_Icc]
    have hb := hexDist_le_imp_box h
    omega

lemma gridDisk_mono {c : Cell} {j j' : Nat} (h : j ≤ j') : gridDisk c j ⊆ gridDisk c j' := by
  intro x hx
  rw [mem_gridDisk] at hx ⊢
  omega

lemma hexDist_self (c : Cell) : hexDist c c = 0 := by
  unfold hexDist; omega

lemma gridDisk_zero (c : Cell) : gridDisk c 0 = {c} := by
  ext x
  rw [mem_gridDisk, Finset.mem_singleton]
  constructor
  · intro h
    unfold hexDist at h
    have h1 : x.1 = c.1 ∧ x.2 = c.2 := by omega
    exact Prod.ext h1.1 h1.2
  · rintro rfl
    rw [hexDist_self]

lemma self_mem_gridDisk (c : Cell) (j : Nat) : c ∈ gridDisk c j := by
  rw [mem_gridDisk, hexDist_self]; omega

/-! ## Polygon boundary representation and external geometry primitives -/

/-- A polygon in boundary representation, as shapely exposes it: one
exterior ring and a list of interior rings (holes). -/
structure MaskPoly where
  exterior : List Point
  interiors : List (List Point)
deriving DecidableEq

/-- The external geometry primitives the analyzers call, modelled at their
interface: `g2c` is the h3 geo-to-cell (`geo_to_h3` / `latlng_to_cell`),
`hexPoly` is `_hex_polygon_metric` (h3 cell boundary projected to the
metric CRS, as a point set), `toWgs` is the metric-to-geographic
coordinate transform (`to_crs(4326)` / `to_wgs84.transform`), and
`outline` is the shapely exterior/interiors decomposition of a geometry. -/
structure GeoPrims where
  g2c : Int → Int → Nat → Cell
  hexPoly : Cell → Finset Point
  toWgs : Point → Point
  outline : Finset Point → MaskPoly

/-- A concrete instantiation of the external primitives, used to evaluate
the development on closed inputs: a cell is its (lon, lat) pair, its
"hexagon" is the single point at its coordinates, and the output transform
is the identity.  The outline decomposition is not inspected by any
property proved here, so the model returns an empty boundary. -/
def geoModel : GeoPrims where
  g2c := fun lat lon _ => (lon, lat)
  hexPoly := fun c => {c}
  toWgs := id
  outline := fun _ => { exterior := [], interiors := [] }

/-! ## Ring decomposition (`_disk_and_rings`, `analyses_trains.py` 45-56) -/

/-- The ring at distance `d` as the source loop computes it: at iteration
`d` the loop variable `prev` holds the inclusive `(d-1)`-disk, so
`ring_d = {center}` when `d = 0` and `incl - prev` otherwise. -/
def ringAt (c : Cell) (d : Nat) : Finset Cell :=
  if d = 0 then {c} else gridDisk c d \ gridDisk c (d - 1)

/-- The helper `_disk_and_rings` (`analyses_trains.py` 45-56): returns the center
cell, the inclusive `k`-disk, and the list of rings for `d = 0..k`. -/
def diskAndRings (P : GeoPrims) (center_lon center_lat : Int) (res k : Nat) :
    Cell × Finset Cell × List (Finset Cell) :=
  let center_cell := P.g2c center_lat center_lon res
  let disk_cells := gridDisk center_cell k
  let rings := (List.range (k + 1)).map (ringAt center_cell)
  (center_cell, disk_cells, rings)

/-- Union of a list of geometries: models the shapely `unary_union`, whose
set-theoretic meaning is the union of the point sets. -/
def unionF (l : List (Finset (Int × Int))) : Finset (Int × Int) :=
  l.foldr (fun a b => a ∪ b) ∅

lemma unionF_nil : unionF [] = ∅ := rfl

lemma unionF_cons (a : Finset (Int × Int)) (l : List (Finset (Int × Int))) :
    unionF (a :: l) = a ∪ unionF l := rfl

lemma unionF_concat (l : List (Finset (Int × Int))) (a : Finset (Int × Int)) :
    unionF (l ++ [a]) = unionF l ∪ a := by
  induction l with
  | nil => simp [unionF]
  | cons b t ih => rw [List.cons_append, unionF_cons, unionF_cons, ih, Finset.union_assoc]

lemma ringAt_subset (c : Cell) (d : Nat) : ringAt c d ⊆ gridDisk c d := by
  unfold ringAt
  split
  · next h => subst h; rw [gridDisk_zero]
  · exact Finset.sdiff_subset

lemma ringAt_disjoint_of_lt (c : Cell) {d e : Nat} (h : d < e) :
    Disjoint (ringAt c d) (ringAt c e) := by
  have he : e ≠ 0 := by omega
  have hsub : ringAt c d ⊆ gridDisk c (e - 1) :=
    (ringAt_subset c d).trans (gridDisk_mono (by omega))
  unfold ringAt
  rw [if_neg he]
  exact (Finset.disjoint_sdiff).mono_left hsub

lemma rings_getD (c : Cell) (k d : Nat) (h : d < k + 1) :
    ((List.range (k + 1)).map (ringAt c)).getD d ∅ = ringAt c d := by
  rw [List.getD_eq_getElem?_getD, List.getElem?_map, List.getElem?_range h]
  rfl

lemma unionF_rings (c : Cell) (k : Nat) :
    unionF ((List.range (k + 1)).map (ringAt c)) = gridDisk c k := by
  induction k with
  | zero =>
    simp [List.range_succ, unionF, ringAt, gridDisk_zero]
  | succ n ih =>
    rw [List.range_succ, List.map_append, List.map_singleton, unionF_concat, ih]
    have hne : n + 1 ≠ 0 := by omega
    unfold ringAt
    rw [if_neg hne]
    simp only [Nat.add_sub_cancel]
    exact Finset.union_sdiff_of_subset (gridDisk_mono (by omega))

/-! ## Feature records and geometric predicates -/

/-- A POI base-layer record after column selection: the retained columns
are FTYPE, UFI and the geometry (`analyses_pois_h3.py` line 34). -/
structure PoiRecord where
  geom : List Point
  FTYPE : String
  UFI : Int
deriving DecidableEq

/-- A station record: a geometry plus all remaining attribute columns
(`analyses_trains.py` forwards every non-geometry column). -/
structure TrainRecord where
  geom : List Point
  props : List (String × String)
deriving DecidableEq

/-- A bounding box `(minx, miny, maxx, maxy)`. -/
abbrev Box := Int × Int × Int × Int

/-- Whether `b` contains the point `q`. -/
def inBox (b : Box) (q : Point) : Prop :=
  b.1 ≤ q.1 ∧ b.2.1 ≤ q.2 ∧ q.1 ≤ b.2.2.1 ∧ q.2 ≤ b.2.2.2

/-- Grow a box to cover one more point. -/
def expandBox (b : Box) (p : Point) : Box :=
  (min b.1 p.1, min b.2.1 p.2, max b.2.2.1 p.1, max b.2.2.2 p.2)

/-- The `bounds` of a geometry: the min/max envelope of its points, `none`
for the empty geometry. -/
def bnds : List Point → Option Box
  | [] => none
  | p :: ps => some (ps.foldl expandBox (p.1, p.2, p.1, p.2))

/-- Whether two (optional) bounding boxes intersect; the empty geometry
has no box and intersects nothing.  Models the R-tree test
`sindex.intersection(bounds)` performs against each indexed record box. -/
def boxHit : Option Box → Option Box → Bool
  | some a, some b =>
      decide (a.1 ≤ b.2.2.1 ∧ b.1 ≤ a.2.2.1 ∧ a.2.1 ≤ b.2.2.2 ∧ b.2.1 ≤ a.2.2.2)
  | _, _ => false

/-- Exact geometric intersection test of a record geometry against a mask
geometry: the point sets meet.  Models the shapely `intersects`. -/
def intersectsF (g : List Point) (m : Finset Point) : Bool :=
  g.any (fun p => decide (p ∈ m))

lemma inBox_expandBox_self (b : Box) (p : Point) : inBox (expandBox b p) p := by
  unfold inBox expandBox
  refine ⟨?_, ?_, ?_, ?_⟩ <;> simp

lemma inBox_expandBox_of_inBox {b : Box} {q : Point} (h : inBox b q) (p : Point) :
    inBox (expandBox b p) q := by
  unfold inBox expandBox
  unfold inBox at h
  refine ⟨?_, ?_, ?_, ?_⟩ <;> simp <;> omega

lemma foldl_expandBox_inBox :
    ∀ (l : List Point) (b : Box) (q : Point), q ∈ l ∨ inBox b q →
      inBox (l.foldl expandBox b) q := by
  intro l
  induction l with
  | nil =>
    intro b q h
    rcases h with h | h
    · exact absurd h (List.not_mem_nil q)
    · exact h
  | cons p t ih =>
    intro b q h
    rw [List.foldl_cons]
    rcases h with h | h
    · rcases List.mem_cons.mp h with rfl | ht
      · exact ih _ _ (Or.inr (inBox_expandBox_self b q))
      · exact ih _ _ (Or.inl ht)
    · exact ih _ _ (Or.inr (inBox_expandBox_of_inBox h p))

lemma bnds_inBox {p : Point} {l : List Point} (h : p ∈ l) :
    ∃ b, bnds l = some b ∧ inBox b p := by
  cases l with
  | nil => exact absurd h (List.not_mem_nil p)
  | cons q t =>
    refine ⟨t.foldl expandBox (q.1, q.2, q.1, q.2), rfl, ?_⟩
    rcases List.mem_cons.mp h with rfl | ht
    · exact foldl_expandBox_inBox t _ p (Or.inr ⟨le_refl _, le_refl _, le_refl _, le_refl _⟩)
    · exact foldl_expandBox_inBox t _ p (Or.inl ht)

lemma boxHit_of_common {a b : Box} {q : Point} (ha : inBox a q) (hb : inBox b q) :
    boxHit (some a) (some b) = true := by
  unfold boxHit
  unfold inBox at ha hb
  simp only [decide_eq_true_eq]
  omega

/-- The degenerate box of a single point. -/
def ptBox (p : Point) : Box := (p.1, p.2, p.1, p.2)

/-- Join of two boxes: the smallest box covering both. -/
def boxJoin (a b : Box) : Box :=
  (min a.1 b.1, min a.2.1 b.2.1, max a.2.2.1 b.2.2.1, max a.2.2.2 b.2.2.2)

/-- Join lifted to optional boxes, with `none` (no extent) as the unit. -/
def optJoin : Option Box → Option Box → Option Box
  | none, b => b
  | some a, none => some a
  | some a, some b => some (boxJoin a b)

lemma boxJoin_comm (a b : Box) : boxJoin a b = boxJoin b a := by
  unfold boxJoin
  rw [min_comm, max_comm, min_comm a.2.1, max_comm a.2.2.2]

lemma boxJoin_assoc (a b c : Box) : boxJoin (boxJoin a b) c = boxJoin a (boxJoin b c) := by
  unfold boxJoin
  simp [min_assoc, max_assoc]

instance : Std.Commutative optJoin where
  comm := by
    intro a b
    cases a <;> cases b <;> simp [optJoin, boxJoin_comm]

instance : Std.Associative optJoin where
  assoc := by
    intro a b c
    cases a <;> cases b <;> cases c <;> simp [optJoin, boxJoin_assoc]

/-- The `bounds` of a mask geometry given as a point set: min/max envelope,
`none` when the set is empty. -/
def fbnds (m : Finset Point) : Option Box :=
  m.fold optJoin none (fun p => some (ptBox p))

lemma inBox_ptBox (p : Point) : inBox (ptBox p) p :=
  ⟨le_refl _, le_refl _, le_refl _, le_refl _⟩

lemma inBox_boxJoin_left {a : Box} (b : Box) {q : Point} (h : inBox a q) :
    inBox (boxJoin a b) q := by
  unfold inBox boxJoin
  unfold inBox at h
  refine ⟨?_, ?_, ?_, ?_⟩ <;> simp <;> omega

lemma inBox_boxJoin_right (a : Box) {b : Box} {q : Point} (h : inBox b q) :
    inBox (boxJoin a b) q := by
  rw [boxJoin_comm]
  exact inBox_boxJoin_left a h

lemma fbnds_inBox {p : Point} {m : Finset Point} (h : p ∈ m) :
    ∃ b, fbnds m = some b ∧ inBox b p := by
  induction m using Finset.induction_on with
  | empty => exact absurd h (Finset.not_mem_empty p)
  | insert ha ih =>
    rename_i a s
    rw [show fbnds (insert a s) = optJoin (some (ptBox a)) (fbnds s) from
      Finset.fold_insert ha]
    rcases Finset.mem_insert.mp h with rfl | hs
    · cases hopt : fbnds s with
      | none => exact ⟨ptBox p, rfl, inBox_ptBox p⟩
      | some b => exact ⟨boxJoin (ptBox p) b, rfl, inBox_boxJoin_left b (inBox_ptBox p)⟩
    · obtain ⟨b, hb, hin⟩ := ih hs
      rw [hb]
      exact ⟨boxJoin (ptBox a) b, rfl, inBox_boxJoin_right _ hin⟩

/-- A record geometry that intersects the mask passes the bounding-box
prefilter: the spatial index never excludes a truly intersecting record. -/
lemma boxHit_of_intersects {g : List Point} {m : Finset Point}
    (h : intersectsF g m = true) : boxHit (bnds g) (fbnds m) = true := by
  unfold intersectsF at h
  rcases List.any_eq_true.mp h with ⟨p, hpg, hpm⟩
  obtain ⟨bg, hbg, hgin⟩ := bnds_inBox hpg
  obtain ⟨bm, hbm, hmin⟩ := fbnds_inBox (of_decide_eq_true hpm)
  rw [hbg, hbm]
  exact boxHit_of_common hgin hmin

/-! ## POIs analyzer (`analyses_pois_h3.py`) -/

/-- The fixed metric CRS (EPSG code), `TARGET_EPSG = 7855`. -/
def TARGET_EPSG : Nat := 7855

/-- Effective disk depth of the POIs run (`analyses_pois_h3.py` line 50):
`3 if disk_k is None else max(0, min(int(disk_k), int(k)))`. -/
def poisDk (disk_k : Option Int) (k : Nat) : Nat :=
  match disk_k with
  | none => 3
  | some v => (max 0 (min v (k : Int))).toNat

/-- Modelled from the spec: the helper `_disk_polygon_metric` is elided in
the source (line 17, "helpers unchanged").  Per the spec it is the union
of the hexagon polygons of the inclusive disk of depth `dk` around the
cell of the center point; `buffer(0)` is geometric cleanup and is the
identity on the point-set semantics. -/
def diskPolygonMetric (P : GeoPrims) (center_lon center_lat : Int) (res dk : Nat) :
    Finset Point :=
  (gridDisk (P.g2c center_lat center_lon res) dk).biUnion P.hexPoly

/-- Modelled from the spec: the helper `_geom_to_wgs84_fc` is elided in
the source; per the spec it reprojects the mask polygon to geographic
coordinates (boundary ring transform). -/
def geomToWgs84Fc (tw : Point → Point) (m : Finset Point) : Finset Point :=
  m.image tw

/-- Spatial-index prefilter (`analyses_pois_h3.py` lines 53-56): records
whose bounding box intersects the bounding box of the mask. -/
def poisPrefilter (gdf : List PoiRecord) (mask : Finset Point) : List PoiRecord :=
  gdf.filter (fun r => boxHit (bnds r.geom) (fbnds mask))

/-- Exact filter (`analyses_pois_h3.py` line 57): prefiltered candidates
whose geometry truly intersects the mask. -/
def poisExact (gdf : List PoiRecord) (mask : Finset Point) : List PoiRecord :=
  (poisPrefilter gdf mask).filter (fun r => intersectsF r.geom mask)

/-- FTYPE allow-list filter (`analyses_pois_h3.py` lines 59-60): the
Python guard is `if include_ftypes:`, which skips the filter both when the
argument is absent and when it is an empty list (truthiness). -/
def poisFtypeFilter (include_ftypes : Option (List String)) (cand : List PoiRecord) :
    List PoiRecord :=
  match include_ftypes with
  | none => cand
  | some fts => if fts.isEmpty then cand else cand.filter (fun r => fts.contains r.FTYPE)

/-- Result cap (`analyses_pois_h3.py` lines 62-63): truncate only when the
candidate count exceeds `max_points`. -/
def poisCap (max_points : Nat) (cand : List PoiRecord) : List PoiRecord :=
  if max_points < cand.length then cand.take max_points else cand

/-- Selection pipeline of the POIs run up to and including the attribute
filter (before the result cap). -/
def poisSelect (gdf : List PoiRecord) (mask : Finset Point)
    (include_ftypes : Option (List String)) : List PoiRecord :=
  poisFtypeFilter include_ftypes (poisExact gdf mask)

/-- An emitted POI feature (`analyses_pois_h3.py` lines 71-75). -/
structure PoiFeature where
  coords : List Point
  FTYPE : String
  UFI : Int
deriving DecidableEq

/-- Feature construction (`analyses_pois_h3.py` lines 65-75): reproject the
surviving records to geographic coordinates, skip records whose geometry is
empty after reprojection, and emit one feature per remaining record. -/
def poisFeats (tw : Point → Point) (cand : List PoiRecord) : List PoiFeature :=
  (cand.map (fun r => { r with geom := r.geom.map tw })).filterMap
    (fun r => if r.geom.isEmpty then none
              else some { coords := r.geom, FTYPE := r.FTYPE, UFI := r.UFI })

/-- The POIs summary (`analyses_pois_h3.py` line 81). -/
structure PoisSummary where
  count : Nat
  res : Nat
  disk_k : Nat
  k_built : Nat
  filtered_types : List String
deriving DecidableEq

/-- The POIs result envelope (`analyses_pois_h3.py` lines 78-82). -/
structure PoisOut where
  features : List PoiFeature
  mask : Finset Point
  summary : PoisSummary
deriving DecidableEq

/-- The operation `POIsAnalysisH3.run` (`analyses_pois_h3.py` lines 39-82), over an
already-loaded store `gdf`. -/
def poisRun (P : GeoPrims) (gdf : List PoiRecord) (center_lon center_lat : Int)
    (res k : Nat) (disk_k : Option Int) (include_ftypes : Option (List String))
    (max_points : Nat) : PoisOut :=
  let dk := poisDk disk_k k
  let mask_geom := diskPolygonMetric P center_lon center_lat res dk
  let sel := poisCap max_points (poisSelect gdf mask_geom include_ftypes)
  let feats := poisFeats P.toWgs sel
  { features := feats
    mask := geomToWgs84Fc P.toWgs mask_geom
    summary := { count := feats.length, res := res, disk_k := dk, k_built := k,
                 filtered_types := include_ftypes.getD [] } }

/-! ## Trains analyzer (`analyses_trains.py`) -/

/-- Clamped band index (`analyses_trains.py` line 132):
`bi = max(0, min(band_index, k))`. -/
def trainsBi (band_index : Int) (k : Nat) : Nat :=
  (max 0 (min band_index (k : Int))).toNat

/-- Effective disk depth (`analyses_trains.py` line 134):
`dk = bi if disk_k is None else max(0, min(disk_k, k))`. -/
def trainsDk (disk_k : Option Int) (bi k : Nat) : Nat :=
  match disk_k with
  | none => bi
  | some v => (max 0 (min v (k : Int))).toNat

/-- Per-ring polygons of the trains run (`analyses_trains.py` line 129):
`ring_polys = [unary_union([_hex_polygon_metric(c) for c in ring]) for
ring in rings]`. -/
def trainsRingPolys (P : GeoPrims) (center_lon center_lat : Int) (res k : Nat) :
    List (Finset Point) :=
  ((diskAndRings P center_lon center_lat res k).2.2).map (fun ring => ring.biUnion P.hexPoly)

/-- Mask geometry selection of the trains run (`analyses_trains.py` lines
131-137): disk mode takes the union of ring polygons `0..dk`, band mode
takes the ring polygon at the clamped band index alone. -/
def trainsMaskGeom (P : GeoPrims) (center_lon center_lat : Int) (res k : Nat)
    (band_index : Int) (select_mode : String) (disk_k : Option Int) : Finset Point :=
  if select_mode = "disk" then
    unionF ((trainsRingPolys P center_lon center_lat res k).take
      (trainsDk disk_k (trainsBi band_index k) k + 1))
  else (trainsRingPolys P center_lon center_lat res k).getD (trainsBi band_index k) ∅

/-- Exact candidate selection of the trains run (`analyses_trains.py` line
140): records whose geometry intersects the mask, no index prefilter. -/
def trainsCandidates (gdf : List TrainRecord) (mask : Finset Point) : List TrainRecord :=
  gdf.filter (fun r => intersectsF r.geom mask)

/-- An emitted station feature (`analyses_trains.py` lines 148-152). -/
structure TrainFeature where
  coords : List Point
  props : List (String × String)
deriving DecidableEq

/-- Feature construction (`analyses_trains.py` lines 143-152): reproject
candidates to geographic coordinates, skip empty geometries, forward every
non-geometry attribute. -/
def trainsFeats (tw : Point → Point) (cand : List TrainRecord) : List TrainFeature :=
  (cand.map (fun r => { r with geom := r.geom.map tw })).filterMap
    (fun r => if r.geom.isEmpty then none
              else some { coords := r.geom, props := r.props })

/-- The serialized mask feature collection: the ring list of the single
emitted polygon feature. -/
structure MaskFC where
  rings : List (List Point)
deriving DecidableEq

/-- Mask serialization (`analyses_trains.py` lines 154-163): the code loops
over `mask_geom.exterior.coords` only, transforms each vertex to
geographic coordinates, and emits `"coordinates": [mask_coords]`; the
interior rings of the mask polygon are never consulted. -/
def trainsSerializeMask (tw : Point → Point) (m : MaskPoly) : MaskFC :=
  { rings := [m.exterior.map tw] }

/-- The trains summary (`analyses_trains.py` lines 168-173). -/
structure TrainSummary where
  count : Nat
  select_mode : String
  ring_selected : Nat
  res : Nat
  k : Nat
deriving DecidableEq

/-- The trains result envelope (`analyses_trains.py` lines 165-174). -/
structure TrainOut where
  features : List TrainFeature
  mask : MaskFC
  summary : TrainSummary
deriving DecidableEq

/-- The operation `TrainAnalysisH3.run` (`analyses_trains.py` lines 108-174), over an
already-loaded store `gdf`. -/
def trainsRun (P : GeoPrims) (gdf : List TrainRecord) (center_lon center_lat : Int)
    (res k : Nat) (band_index : Int) (select_mode : String) (disk_k : Option Int) :
    TrainOut :=
  let mask_geom := trainsMaskGeom P center_lon center_lat res k band_index select_mode disk_k
  let candidates := trainsCandidates gdf mask_geom
  let feats := trainsFeats P.toWgs candidates
  { features := feats
    mask := trainsSerializeMask P.toWgs (P.outline mask_geom)
    summary := { count := feats.length, select_mode := select_mode,
                 ring_selected := trainsBi band_index k, res := res, k := k } }

/-! ## Base-layer store loading (`_load` of both analyzers) -/

/-- A raw POI source layer as read from the geopackage: an optional
coordinate reference system (EPSG code) and the records. -/
structure PoiLayer where
  crs : Option Nat
  records : List PoiRecord
deriving DecidableEq

/-- A raw station source layer. -/
structure TrainLayer where
  crs : Option Nat
  records : List TrainRecord
deriving DecidableEq

/-- The error raised when the base-layer source cannot be read: a
`RuntimeError` naming the offending source (the `DataSourceError` of the spec). -/
inductive AnalysisError where
  | dataSource (source : String)
deriving DecidableEq

/-- CRS normalization of the POIs load (`analyses_pois_h3.py` lines 32-33):
when the CRS is absent or differs from the target, `set_crs(TARGET_EPSG,
allow_override=True)` relabels the layer; the geometry is never
transformed. -/
def poisNormalizeCrs (layer : PoiLayer) : PoiLayer :=
  if layer.crs = some TARGET_EPSG then layer
  else { layer with crs := some TARGET_EPSG }

/-- Store construction of the POIs load (`analyses_pois_h3.py` lines
32-37): normalize the CRS, keep the FTYPE/UFI/geometry columns (the record
type retains exactly those), drop records with empty geometry. -/
def poisBuild (layer : PoiLayer) : PoiLayer :=
  let g := poisNormalizeCrs layer
  { g with records := g.records.filter (fun r => !r.geom.isEmpty) }

/-- One call of `POIsAnalysisH3._load` (`analyses_pois_h3.py` lines 25-37)
as a state transition: `st` is the `_gdf` field (`none` = uninitialized),
`source` is the readability of the geopackage layer (`none` = unreadable).
Returns the new state and the raised error, if any. -/
def poisLoadStep (source : Option PoiLayer) (st : Option PoiLayer) :
    Option PoiLayer × Option AnalysisError :=
  match st with
  | some g => (some g, none)
  | none =>
    match source with
    | none => (none, some (AnalysisError.dataSource "data_master/master.gpkg layer=pois"))
    | some layer => (some (poisBuild layer), none)

/-- CRS normalization of the trains load (`analyses_trains.py` lines
90-98): a present CRS is reprojected with `to_crs(TARGET_EPSG)` (the
coordinates are transformed by the projection `reproj` from the source
EPSG), an absent CRS is merely set. -/
def trainsNormalizeCrs (reproj : Nat → Point → Point) (layer : TrainLayer) : TrainLayer :=
  match layer.crs with
  | some src =>
      { crs := some TARGET_EPSG
        records := layer.records.map (fun r => { r with geom := r.geom.map (reproj src) }) }
  | none => { layer with crs := some TARGET_EPSG }

/-- Store construction of the trains load (`analyses_trains.py` lines
90-105): normalize both sub-layers, concatenate, drop empty geometries. -/
def trainsBuild (reproj : Nat → Point → Point) (metro regional : TrainLayer) : TrainLayer :=
  { crs := some TARGET_EPSG
    records := ((trainsNormalizeCrs reproj metro).records ++
      (trainsNormalizeCrs reproj regional).records).filter (fun r => !r.geom.isEmpty) }

/-- One call of `TrainAnalysisH3._load` (`analyses_trains.py` lines 78-105)
as a state transition; the source is the pair of station sub-layers. -/
def trainsLoadStep (reproj : Nat → Point → Point)
    (source : Option (TrainLayer × TrainLayer)) (st : Option TrainLayer) :
    Option TrainLayer × Option AnalysisError :=
  match st with
  | some g => (some g, none)
  | none =>
    match source with
    | none => (none, some (AnalysisError.dataSource "data_master/master.gpkg train layers"))
    | some layers => (some (trainsBuild reproj layers.1 layers.2), none)

/-! ## Supporting lemmas -/

lemma poisExact_eq_filter (gdf : List PoiRecord) (mask : Finset Point) :
    poisExact gdf mask = gdf.filter (fun r => intersectsF r.geom mask) := by
  unfold poisExact poisPrefilter
  rw [List.filter_filter]
  apply List.filter_congr
  intro r _
  cases hq : intersectsF r.geom mask with
  | true => rw [boxHit_of_intersects hq]; rfl
  | false => rw [Bool.false_and]

lemma poisCap_subset (mp : Nat) (l : List PoiRecord) : poisCap mp l ⊆ l := by
  unfold poisCap
  split
  · exact List.take_subset _ _
  · exact fun _ h => h

/-! ## Claim theorems -/

/-- C1: for every loaded store and mask geometry, the candidate records a
run selects before attribute filtering and capping are exactly the stored
records whose geometry intersects the mask; the bounding-box prefilter of
the POIs spatial index never excludes a record whose exact geometry
intersects the mask (it is at most over-inclusive), and the trains run
filters by exact intersection directly. -/
theorem c1_exact_intersection (gdf : List PoiRecord) (tgdf : List TrainRecord)
    (mask : Finset Point) :
    poisExact gdf mask = gdf.filter (fun r => intersectsF r.geom mask)
    ∧ (∀ r, r ∈ gdf → intersectsF r.geom mask = true → r ∈ poisPrefilter gdf mask)
    ∧ trainsCandidates tgdf mask = tgdf.filter (fun r => intersectsF r.geom mask) := by
  refine ⟨poisExact_eq_filter gdf mask, ?_, rfl⟩
  intro r hr hi
  unfold poisPrefilter
  exact List.mem_filter.mpr ⟨hr, boxHit_of_intersects hi⟩

/-- Witness for C1 at a concrete store and mask: a record at the origin
intersecting a one-point mask passes the bounding-box prefilter. -/
theorem c1_exact_intersection_witness :
    (⟨[((0 : Int), (0 : Int))], "school", (1 : Int)⟩ : PoiRecord) ∈
      poisPrefilter [⟨[((0 : Int), (0 : Int))], "school", (1 : Int)⟩]
        {((0 : Int), (0 : Int))} :=
  (c1_exact_intersection [⟨[(0, 0)], "school", 1⟩] [] {((0 : Int), (0 : Int))}).2.1
    ⟨[(0, 0)], "school", 1⟩ (by decide) (by decide)

/-- C2: the ring partition computed by `_disk_and_rings` has ring 0 equal
to the singleton of the center cell, the rings are pairwise disjoint,
their union is the inclusive k-disk of the center (which is also the
returned disk component), and each ring `d > 0` is the set difference of
the inclusive d-disk and the inclusive (d-1)-disk. -/
theorem c2_ring_partition (P : GeoPrims) (center_lon center_lat : Int) (res k : Nat) :
    ((diskAndRings P center_lon center_lat res k).2.2).getD 0 ∅ =
        {(diskAndRings P center_lon center_lat res k).1}
    ∧ List.Pairwise (fun s t => Disjoint s t)
        ((diskAndRings P center_lon center_lat res k).2.2)
    ∧ unionF ((diskAndRings P center_lon center_lat res k).2.2) =
        (diskAndRings P center_lon center_lat res k).2.1
    ∧ (diskAndRings P center_lon center_lat res k).2.1 =
        gridDisk ((diskAndRings P center_lon center_lat res k).1) k
    ∧ (∀ d, 1 ≤ d → d ≤ k →
        ((diskAndRings P center_lon center_lat res k).2.2).getD d ∅ =
          gridDisk ((diskAndRings P center_lon center_lat res k).1) d \
            gridDisk ((diskAndRings P center_lon center_lat res k).1) (d - 1)) := by
  refine ⟨?_, ?_, ?_, rfl, ?_⟩
  · rw [show (diskAndRings P center_lon center_lat res k).2.2 =
        (List.range (k + 1)).map (ringAt (P.g2c center_lat center_lon res)) from rfl]
    rw [rings_getD _ k 0 (by omega)]
    rfl
  · rw [show (diskAndRings P center_lon center_lat res k).2.2 =
        (List.range (k + 1)).map (ringAt (P.g2c center_lat center_lon res)) from rfl]
    rw [List.pairwise_map]
    exact (List.pairwise_lt_range (k + 1)).imp
      (fun h => ringAt_disjoint_of_lt _ h)
  · exact unionF_rings _ k
  · intro d h1 h2
    rw [show (diskAndRings P center_lon center_lat res k).2.2 =
        (List.range (k + 1)).map (ringAt (P.g2c center_lat center_lon res)) from rfl]
    rw [rings_getD _ k d (by omega)]
    unfold ringAt
    rw [if_neg (by omega)]
    rfl

/-- Witness for C2 at a concrete center and `k = 2`: ring 1 is the set
difference of the 1-disk and the 0-disk. -/
theorem c2_ring_partition_witness :
    ((diskAndRings geoModel 0 0 8 2).2.2).getD 1 ∅ =
      gridDisk ((diskAndRings geoModel 0 0 8 2).1) 1 \
        gridDisk ((diskAndRings geoModel 0 0 8 2).1) 0 :=
  (c2_ring_partition geoModel 0 0 8 2).2.2.2.2 1 (by decide) (by decide)

lemma take_eq_map_getD :
    ∀ (l : List (Finset (Int × Int))) (n : Nat), n ≤ l.length →
      l.take n = (List.range n).map (fun i => l.getD i ∅)
  | _, 0, _ => by simp
  | [], n + 1, h => by simp at h
  | a :: t, n + 1, h => by
    have ht : t.take n = (List.range n).map (fun i => t.getD i ∅) :=
      take_eq_map_getD t n (by simpa using h)
    simp [List.take_succ_cons, List.range_succ_eq_map, List.map_map, ht, Function.comp_def,
      List.getD_cons_zero, List.getD_cons_succ]

lemma clampNat_eq {i k : Nat} (h : i ≤ k) : (max 0 (min (i : Int) (k : Int))).toNat = i := by
  rw [min_eq_left (by exact_mod_cast h), max_eq_right (Int.natCast_nonneg i)]
  simp

lemma clampNat_le (v : Int) (k : Nat) : (max 0 (min v (k : Int))).toNat ≤ k := by
  rw [Int.toNat_le]
  exact max_le (by exact_mod_cast Nat.zero_le k) (min_le_right v (k : Int))

lemma trainsBi_of_le {i k : Nat} (h : i ≤ k) : trainsBi (i : Int) k = i :=
  clampNat_eq h

lemma trainsDk_some_of_le {d k : Nat} (bi : Nat) (h : d ≤ k) :
    trainsDk (some (d : Int)) bi k = d :=
  clampNat_eq h

lemma trainsMaskGeom_disk (P : GeoPrims) (center_lon center_lat : Int) (res k : Nat)
    (b : Int) (o : Option Int) :
    trainsMaskGeom P center_lon center_lat res k b "disk" o =
      unionF ((trainsRingPolys P center_lon center_lat res k).take
        (trainsDk o (trainsBi b k) k + 1)) := by
  unfold trainsMaskGeom
  rw [if_pos rfl]

lemma trainsMaskGeom_band (P : GeoPrims) (center_lon center_lat : Int) (res k : Nat)
    (b : Int) (o : Option Int) :
    trainsMaskGeom P center_lon center_lat res k b "band" o =
      (trainsRingPolys P center_lon center_lat res k).getD (trainsBi b k) ∅ := by
  unfold trainsMaskGeom
  rw [if_neg (by decide)]

lemma trainsRingPolys_length (P : GeoPrims) (center_lon center_lat : Int) (res k : Nat) :
    (trainsRingPolys P center_lon center_lat res k).length = k + 1 := by
  unfold trainsRingPolys
  rw [show (diskAndRings P center_lon center_lat res k).2.2 =
    (List.range (k + 1)).map (ringAt (P.g2c center_lat center_lon res)) from rfl]
  rw [List.length_map, List.length_map, List.length_range]

/-- C3: the disk-mode mask at effective depth `d ≤ k` equals the union of
the band-mode masks for band indices `0..d` (same center, resolution and
`k`). -/
theorem c3_band_disk_equivalence (P : GeoPrims) (center_lon center_lat : Int)
    (res k : Nat) (b : Int) (d : Nat) (hd : d ≤ k) :
    trainsMaskGeom P center_lon center_lat res k b "disk" (some (d : Int)) =
      unionF ((List.range (d + 1)).map
        (fun (i : Nat) => trainsMaskGeom P center_lon center_lat res k (i : Int) "band" none)) := by
  rw [trainsMaskGeom_disk, trainsDk_some_of_le _ hd]
  have hlen := trainsRingPolys_length P center_lon center_lat res k
  rw [take_eq_map_getD _ (d + 1) (by omega)]
  congr 1
  apply List.map_congr_left
  intro i hi
  rw [List.mem_range] at hi
  rw [trainsMaskGeom_band, trainsBi_of_le (by omega)]

/-- Witness for C3 at a concrete center, `k = 2`, depth `d = 1`. -/
theorem c3_band_disk_equivalence_witness :
    trainsMaskGeom geoModel 0 0 8 2 5 "disk" (some (1 : Int)) =
      unionF ((List.range 2).map
        (fun (i : Nat) => trainsMaskGeom geoModel 0 0 8 2 (i : Int) "band" none)) :=
  c3_band_disk_equivalence geoModel 0 0 8 2 5 1 (by decide)

/-- C4 counterexample: with `k = 1` and no depth override supplied, the
POIs run uses the unclamped default depth 3, which lies outside `[0, k]`;
the summary echoes the effective depth actually used. -/
theorem c4_default_depth_counterexample :
    (poisRun geoModel [] 0 0 8 1 none none 4000).summary.disk_k = 3 ∧
    ¬ (poisRun geoModel [] 0 0 8 1 none none 4000).summary.disk_k ≤ 1 := by
  constructor
  · rfl
  · decide

/-- C4 amended: a supplied disk-depth or band-index override is clamped
into `[0, k]` by every analyzer, and the trains default policy (use the
clamped band index) also yields a depth in `[0, k]`; the POIs default
policy, however, is the constant 3 regardless of `k`.  The summaries echo
the effective values the runs use. -/
theorem c4_effective_depth_clamping :
    (∀ (v : Int) (k : Nat), poisDk (some v) k ≤ k)
    ∧ (∀ k : Nat, poisDk none k = 3)
    ∧ (∀ (b : Int) (k : Nat), trainsBi b k ≤ k)
    ∧ (∀ (o : Option Int) (bi k : Nat), bi ≤ k → trainsDk o bi k ≤ k)
    ∧ (∀ bi k : Nat, trainsDk none bi k = bi)
    ∧ (∀ P gdf lon lat res k dkk ft mp,
        (poisRun P gdf lon lat res k dkk ft mp).summary.disk_k = poisDk dkk k)
    ∧ (∀ P gdf lon lat res k b mo o,
        (trainsRun P gdf lon lat res k b mo o).summary.ring_selected = trainsBi b k) := by
  refine ⟨?_, fun _ => rfl, ?_, ?_, fun _ _ => rfl, fun _ _ _ _ _ _ _ _ _ => rfl,
    fun _ _ _ _ _ _ _ _ _ => rfl⟩
  · intro v k
    exact clampNat_le v k
  · intro b k
    exact clampNat_le b k
  · intro o bi k h
    cases o with
    | none => exact h
    | some v => exact clampNat_le v k

/-- Witness for the C4 amended clamping at concrete values: an override of 5
with `bi = 2`, `k = 3` is clamped to at most 3. -/
theorem c4_effective_depth_clamping_witness : trainsDk (some 5) 2 3 ≤ 3 :=
  c4_effective_depth_clamping.2.2.2.1 (some 5) 2 3 (by decide)

/-- C5 counterexample: loading a POIs layer whose source CRS is present
and different from the metric CRS (here EPSG 4326) does not transform the
record coordinates — `set_crs` only relabels.  The claim, instantiated
with any reprojection that moves the point (here a stand-in shift, as the
real geographic-to-metric projection certainly moves it), is false. -/
theorem c5_reprojection_counterexample :
    ¬ (∀ (L : PoiLayer) (src : Nat), L.crs = some src → src ≠ TARGET_EPSG →
        (poisLoadStep (some L) none).1 =
          some { crs := some TARGET_EPSG
                 records := (L.records.filter (fun r => !r.geom.isEmpty)).map
                   (fun r => { r with geom := r.geom.map (fun p => (p.1 + 1, p.2)) }) }) := by
  intro h
  exact absurd
    (h ⟨some 4326, [⟨[((0 : Int), (0 : Int))], "school", 1⟩]⟩ 4326 rfl (by decide))
    (by decide)

/-- C5 amended: an absent source CRS is set to the fixed metric CRS in
both stores with the geometry untouched; the trains load reprojects a
present CRS (coordinates transformed by the projection from the source
EPSG); the POIs load, however, only relabels a present-but-different CRS
to the metric CRS, leaving the coordinates unchanged. -/
theorem c5_crs_normalization (reproj : Nat → Point → Point) (L : PoiLayer)
    (M : TrainLayer) (src : Nat) :
    (L.crs = none → poisNormalizeCrs L = { L with crs := some TARGET_EPSG })
    ∧ (L.crs = some src → src ≠ TARGET_EPSG →
        poisNormalizeCrs L = { L with crs := some TARGET_EPSG })
    ∧ (L.crs = some TARGET_EPSG → poisNormalizeCrs L = L)
    ∧ (M.crs = none → trainsNormalizeCrs reproj M = { M with crs := some TARGET_EPSG })
    ∧ (M.crs = some src → trainsNormalizeCrs reproj M =
        { crs := some TARGET_EPSG
          records := M.records.map (fun r => { r with geom := r.geom.map (reproj src) }) }) := by
  refine ⟨?_, ?_, ?_, ?_, ?_⟩
  · intro h
    unfold poisNormalizeCrs
    rw [h, if_neg (by simp)]
  · intro h hne
    unfold poisNormalizeCrs
    rw [h, if_neg (by simpa using hne)]
  · intro h
    unfold poisNormalizeCrs
    rw [if_pos h]
  · intro h
    unfold trainsNormalizeCrs
    rw [h]
  · intro h
    unfold trainsNormalizeCrs
    rw [h]

/-- Witness for the C5 amended statement at a concrete layer: a POIs layer
labelled EPSG 4326 is relabelled to the metric CRS with records kept
as-is. -/
theorem c5_crs_normalization_witness :
    poisNormalizeCrs { crs := some 4326, records := [] } =
      { crs := some TARGET_EPSG, records := ([] : List PoiRecord) } :=
  (c5_crs_normalization (fun _ p => p) { crs := some 4326, records := [] }
    { crs := none, records := [] } 4326).2.1 rfl (by decide)

/-- C6: the store load is lazy and idempotent (a loaded store is returned
unchanged, whatever the source), an unreadable source raises a data-source
error naming the offending source while the store stays uninitialized, a
later call with the source still unreadable re-attempts and raises the
same error (no error caching), and a later call with the source readable
succeeds and populates the store — for both analyzers. -/
theorem c6_lazy_idempotent_load :
    (∀ (source : Option PoiLayer) (g : PoiLayer),
        poisLoadStep source (some g) = (some g, none))
    ∧ poisLoadStep none none =
        (none, some (AnalysisError.dataSource "data_master/master.gpkg layer=pois"))
    ∧ poisLoadStep none (poisLoadStep none none).1 = poisLoadStep none none
    ∧ (∀ L : PoiLayer, poisLoadStep (some L) (poisLoadStep none none).1 =
        (some (poisBuild L), none))
    ∧ (∀ (reproj : Nat → Point → Point) (source : Option (TrainLayer × TrainLayer))
        (g : TrainLayer), trainsLoadStep reproj source (some g) = (some g, none))
    ∧ (∀ reproj : Nat → Point → Point, trainsLoadStep reproj none none =
        (none, some (AnalysisError.dataSource "data_master/master.gpkg train layers")))
    ∧ (∀ reproj : Nat → Point → Point,
        trainsLoadStep reproj none (trainsLoadStep reproj none none).1 =
          trainsLoadStep reproj none none)
    ∧ (∀ (reproj : Nat → Point → Point) (M : TrainLayer × TrainLayer),
        trainsLoadStep reproj (some M) (trainsLoadStep reproj none none).1 =
          (some (trainsBuild reproj M.1 M.2), none)) :=
  ⟨fun _ _ => rfl, rfl, rfl, fun _ => rfl, fun _ _ _ => rfl, fun _ => rfl, fun _ => rfl,
    fun _ _ => rfl⟩

lemma poisFeats_append (tw : Point → Point) (a b : List PoiRecord) :
    poisFeats tw (a ++ b) = poisFeats tw a ++ poisFeats tw b := by
  unfold poisFeats
  rw [List.map_append, List.filterMap_append]

/-- C7: under a fixed input and fixed store state, the capped output
feature sequence is a prefix of the uncapped output feature sequence (the
uncapped output extends it on the right, no reordering); when the
surviving candidate count does not exceed the cap, the cap leaves the
candidates unchanged.  The feature list of the run is exactly the feature list
of the capped pipeline. -/
theorem c7_cap_determinism (tw : Point → Point) (gdf : List PoiRecord) (mask : Finset Point)
    (ft : Option (List String)) (mp : Nat) :
    (∃ t, poisFeats tw (poisSelect gdf mask ft) =
        poisFeats tw (poisCap mp (poisSelect gdf mask ft)) ++ t)
    ∧ ((poisSelect gdf mask ft).length ≤ mp →
        poisCap mp (poisSelect gdf mask ft) = poisSelect gdf mask ft)
    ∧ (∀ P gdf2 lon lat res k dkk ft2 mp2,
        (poisRun P gdf2 lon lat res k dkk ft2 mp2).features =
          poisFeats P.toWgs (poisCap mp2 (poisSelect gdf2
            (diskPolygonMetric P lon lat res (poisDk dkk k)) ft2))) := by
  refine ⟨?_, ?_, fun _ _ _ _ _ _ _ _ _ => rfl⟩
  · unfold poisCap
    split
    · refine ⟨poisFeats tw ((poisSelect gdf mask ft).drop mp), ?_⟩
      conv_lhs => rw [show poisSelect gdf mask ft =
        (poisSelect gdf mask ft).take mp ++ (poisSelect gdf mask ft).drop mp from
        (List.take_append_drop mp _).symm]
      exact poisFeats_append tw _ _
    · exact ⟨[], (List.append_nil _).symm⟩
  · intro h
    unfold poisCap
    rw [if_neg (by omega)]

/-- Witness for C7 at a concrete store: with no records the pipeline
output is below any cap and the cap is the identity. -/
theorem c7_cap_determinism_witness :
    poisCap 5 (poisSelect [] ∅ none) = poisSelect [] ∅ none :=
  (c7_cap_determinism id [] ∅ none 5).2.1 (by decide)

lemma mem_poisFeats {tw : Point → Point} {l : List PoiRecord} {f : PoiFeature}
    (h : f ∈ poisFeats tw l) : ∃ r ∈ l, f.FTYPE = r.FTYPE := by
  unfold poisFeats at h
  rcases List.mem_filterMap.mp h with ⟨r', hr', hif⟩
  rcases List.mem_map.mp hr' with ⟨r, hr, rfl⟩
  refine ⟨r, hr, ?_⟩
  split at hif
  · cases hif
  · rw [Option.some.injEq] at hif
    rw [← hif]

/-- C8 counterexample: the POIs run treats a supplied empty allow-list
like an absent one (`if include_ftypes:` is falsy on `[]`), so a record
survives whose FTYPE belongs to no element of the supplied (empty)
allow-list. -/
theorem c8_empty_allowlist_counterexample :
    ∃ f ∈ (poisRun geoModel [⟨[((0 : Int), (0 : Int))], "school", 1⟩] 0 0 8 4
        (some 0) (some []) 4000).features,
      f.FTYPE ∉ ([] : List String) := by
  decide

/-- C8 amended: when a NON-EMPTY allow-list is supplied, every output
feature has its FTYPE in it; when no allow-list is supplied — and
likewise when an empty one is supplied, by the truthiness guard of the run —
the output equals the unfiltered result. -/
theorem c8_ftype_allowlist (P : GeoPrims) (gdf : List PoiRecord) (lon lat : Int)
    (res k : Nat) (dkk : Option Int) (fts : List String) (mp : Nat) :
    (fts ≠ [] → ∀ f ∈ (poisRun P gdf lon lat res k dkk (some fts) mp).features,
        f.FTYPE ∈ fts)
    ∧ (poisRun P gdf lon lat res k dkk none mp).features =
        poisFeats P.toWgs (poisCap mp (poisExact gdf
          (diskPolygonMetric P lon lat res (poisDk dkk k))))
    ∧ (poisRun P gdf lon lat res k dkk (some []) mp).features =
        poisFeats P.toWgs (poisCap mp (poisExact gdf
          (diskPolygonMetric P lon lat res (poisDk dkk k)))) := by
  refine ⟨?_, rfl, rfl⟩
  intro hne f hf
  have hne' : fts.isEmpty = false := by
    cases fts with
    | nil => exact absurd rfl hne
    | cons a t => rfl
  have hfe : (poisRun P gdf lon lat res k dkk (some fts) mp).features =
      poisFeats P.toWgs (poisCap mp ((poisExact gdf
        (diskPolygonMetric P lon lat res (poisDk dkk k))).filter
          (fun r => fts.contains r.FTYPE))) := by
    simp only [poisRun, poisSelect, poisFtypeFilter, hne', Bool.false_eq_true, if_false]
  rw [hfe] at hf
  obtain ⟨r, hr, hft⟩ := mem_poisFeats hf
  have hr2 := poisCap_subset mp _ hr
  have hc := (List.mem_filter.mp hr2).2
  rw [hft]
  simpa using hc

/-- Witness for the C8 amended statement: with allow-list `["school"]`, the
single emitted feature has its FTYPE in the allow-list. -/
theorem c8_ftype_allowlist_witness :
    (⟨[((0 : Int), (0 : Int))], "school", 1⟩ : PoiFeature).FTYPE ∈ ["school"] :=
  (c8_ftype_allowlist geoModel [⟨[((0 : Int), (0 : Int))], "school", 1⟩] 0 0 8 4
      (some 0) ["school"] 4000).1 (by decide)
    ⟨[((0 : Int), (0 : Int))], "school", 1⟩ (by decide)

lemma poisFeats_length (tw : Point → Point) :
    ∀ l : List PoiRecord,
      (poisFeats tw l).length = l.countP (fun r => !(r.geom.map tw).isEmpty)
  | [] => rfl
  | r :: t => by
    have ih := poisFeats_length tw t
    unfold poisFeats
    unfold poisFeats at ih
    rw [List.map_cons, List.filterMap_cons, List.countP_cons]
    by_cases hq : (r.geom.map tw).isEmpty
    · rw [if_pos hq, ih]
      simp [hq]
    · rw [if_neg hq, List.length_cons, ih]
      simp [hq]

lemma trainsFeats_length (tw : Point → Point) :
    ∀ l : List TrainRecord,
      (trainsFeats tw l).length = l.countP (fun r => !(r.geom.map tw).isEmpty)
  | [] => rfl
  | r :: t => by
    have ih := trainsFeats_length tw t
    unfold trainsFeats
    unfold trainsFeats at ih
    rw [List.map_cons, List.filterMap_cons, List.countP_cons]
    by_cases hq : (r.geom.map tw).isEmpty
    · rw [if_pos hq, ih]
      simp [hq]
    · rw [if_neg hq, List.length_cons, ih]
      simp [hq]

/-- C9: for both analyzers, the summary count equals the number of
features in the emitted feature collection, and that number counts exactly
the surviving candidates whose geometry is non-empty after reprojection
(empty-after-reprojection records are excluded from both list and count). -/
theorem c9_count_consistency (P : GeoPrims) (gdf : List PoiRecord) (lon lat : Int)
    (res k : Nat) (dkk : Option Int) (ft : Option (List String)) (mp : Nat)
    (tgdf : List TrainRecord) (lon2 lat2 : Int) (res2 k2 : Nat) (b : Int)
    (mo : String) (o : Option Int) :
    (poisRun P gdf lon lat res k dkk ft mp).summary.count =
        (poisRun P gdf lon lat res k dkk ft mp).features.length
    ∧ (poisRun P gdf lon lat res k dkk ft mp).features.length =
        (poisCap mp (poisSelect gdf (diskPolygonMetric P lon lat res (poisDk dkk k)) ft)).countP
          (fun r => !(r.geom.map P.toWgs).isEmpty)
    ∧ (trainsRun P tgdf lon2 lat2 res2 k2 b mo o).summary.count =
        (trainsRun P tgdf lon2 lat2 res2 k2 b mo o).features.length
    ∧ (trainsRun P tgdf lon2 lat2 res2 k2 b mo o).features.length =
        (trainsCandidates tgdf (trainsMaskGeom P lon2 lat2 res2 k2 b mo o)).countP
          (fun r => !(r.geom.map P.toWgs).isEmpty) :=
  ⟨rfl, poisFeats_length P.toWgs _, rfl, trainsFeats_length P.toWgs _⟩

/-- C10: the serialized mask of a trains result consists of the
transformed exterior ring alone — it is one ring, computed from
`exterior.coords` only, and is unchanged whatever interior holes the mask
polygon has (so a band-mode annulus is emitted filled, without its
holes); the mask field of the run is exactly this serialization of the outline
of the mask geometry. -/
theorem c10_mask_exterior_only (tw : Point → Point) (m : MaskPoly) (P : GeoPrims)
    (gdf : List TrainRecord) (lon lat : Int) (res k : Nat) (b : Int) (mo : String)
    (o : Option Int) :
    trainsSerializeMask tw m =
        trainsSerializeMask tw { exterior := m.exterior, interiors := [] }
    ∧ (trainsSerializeMask tw m).rings = [m.exterior.map tw]
    ∧ (trainsRun P gdf lon lat res k b mo o).mask =
        trainsSerializeMask P.toWgs (P.outline (trainsMaskGeom P lon lat res k b mo o)) :=
  ⟨rfl, rfl, rfl⟩

end EchoApp
